import Mathlib

/-!
Shallow embedding of the RealtimeSTT push-to-talk example client
(`example_app/client.py`): frame codec, integrity checksum, receiver
message classification, the capture/send worker, the activation handlers
and the reconnect loop, together with theorems checking the natural
language specification against them.  Bytes are modelled as natural
numbers (`< 256` for genuine byte strings); byte strings are lists.
-/

namespace RSTT

/-- The client's `SAMPLE_RATE` constant. -/
def SAMPLE_RATE : Nat := 16000

/-- The client's `CHUNK_SIZES` table: adaptive fallbacks used when
reconnecting. -/
def CHUNK_SIZES : List Nat := [4096, 2048, 1024]

/-- One little-endian signed 16-bit sample from its two bytes, the way
`np.frombuffer(_, dtype=np.int16)` reads them on a little-endian host. -/
def toInt16 (lo hi : Nat) : Int :=
  if lo + 256 * hi < 32768 then ((lo + 256 * hi : Nat) : Int)
  else ((lo + 256 * hi : Nat) : Int) - 65536

/-- All samples of a byte string, consecutive byte pairs little-endian. -/
def toSamples : List Nat → List Int
  | lo :: hi :: rest => toInt16 lo hi :: toSamples rest
  | _ => []

/-- Wrap an integer into the signed 64-bit range, the way a `numpy`
`int64` accumulator wraps. -/
def wrapInt64 (s : Int) : Int := (s + 2 ^ 63) % 2 ^ 64 - 2 ^ 63

/-- `PTTClient.checksum_int16`: reinterpret the byte string as
little-endian signed 16-bit samples, sum them into an `int64`
accumulator, mask the final value to the low 32 bits.  `np.frombuffer`
raises when the buffer length is not a multiple of the element size,
hence `none` on odd length. -/
def checksum_int16 (audio : List Nat) : Option Nat :=
  if audio.length % 2 = 0 then
    some ((wrapInt64 (toSamples audio).sum % 2 ^ 32).toNat)
  else none

/-- Values occurring in the frame metadata dictionary. -/
inductive MetaVal
  | num (n : Nat)
  | bool (b : Bool)
  deriving DecidableEq

/-- The metadata dictionary built by `PTTClient.frame`, in insertion
order. -/
def metaEntries (sr dl cs ts : Nat) : List (String × MetaVal) :=
  [ ( "sampleRate", .num sr), ( "dataLength", .num dl), ( "checksum", .num cs),
    ( "timestamp", .num ts), ( "server_sent_to_stt", .bool true)]

/-- ASCII bytes of a string (UTF-8 agrees with the code points on the
ASCII-only strings used here). -/
def strBytes (s : String) : List Nat := s.data.map Char.toNat

/-- Decimal digits of a natural number as ASCII bytes, the way Python
prints an `int`. -/
def natDigits (n : Nat) : List Nat :=
  if n = 0 then [48] else (Nat.digits 10 n).reverse.map (fun d => d + 48)

/-- `json.dumps` rendering of one metadata value. -/
def dumpVal : MetaVal → List Nat
  | .num n => natDigits n
  | .bool true => strBytes "true"
  | .bool false => strBytes "false"

/-- `json.dumps` rendering of one key/value pair. -/
def dumpEntry (e : String × MetaVal) : List Nat :=
  strBytes "\"" ++ strBytes e.1 ++ strBytes "\": " ++ dumpVal e.2

/-- The `", "`-joined list of rendered pairs. -/
def dumpEntries : List (String × MetaVal) → List Nat
  | [] => []
  | [e] => dumpEntry e
  | e :: e2 :: rest => dumpEntry e ++ strBytes ", " ++ dumpEntries (e2 :: rest)

/-- `json.dumps` of a map with the default separators. -/
def jsonDumps (l : List (String × MetaVal)) : List Nat :=
  strBytes "\x7b" ++ dumpEntries l ++ strBytes "\x7d"

/-- The four little-endian bytes `struct.pack("<I", n)` produces. -/
def le32 (n : Nat) : List Nat :=
  [n % 256, n / 256 % 256, n / 65536 % 256, n / 16777216 % 256]

/-- `struct.pack("<I", n)` raises `struct.error` unless `n < 2^32`. -/
def structPackLE32 (n : Nat) : Option (List Nat) :=
  if n < 2 ^ 32 then some (le32 n) else none

/-- Failure modes of `PTTClient.frame`: an odd byte count makes
`np.frombuffer` raise (the spec's `InvalidAudioLength`); an oversized
metadata blob would make `struct.pack("<I", _)` raise. -/
inductive FrameError
  | InvalidAudioLength
  | MetadataTooLong
  deriving DecidableEq

/-- `PTTClient.frame`: 4-byte little-endian metadata length, then the
UTF-8 metadata map, then the raw audio bytes.  `sampleRate` is the
client's `SAMPLE_RATE` constant; `nowMs` is `int(time.time() * 1000)` at
the call. -/
def frame (sampleRate nowMs : Nat) (audio : List Nat) : Except FrameError (List Nat) :=
  match checksum_int16 audio with
  | none => .error .InvalidAudioLength
  | some cs =>
    let metaJson := jsonDumps (metaEntries sampleRate (audio.length / 2) cs nowMs)
    match structPackLE32 metaJson.length with
    | none => .error .MetadataTooLong
    | some metaLen => .ok (metaLen ++ metaJson ++ audio)

/-- Metadata recovered by the reference decoder. -/
structure Meta where
  sampleRate : Nat
  dataLength : Nat
  checksum : Nat
  timestamp : Nat
  deriving DecidableEq

/-- ASCII decimal digit test. -/
def isDigit (b : Nat) : Bool := decide (48 ≤ b ∧ b ≤ 57)

/-- Consume a maximal run of decimal digits, accumulating their value. -/
def parseNatAux : Nat → List Nat → Nat × List Nat
  | acc, [] => (acc, [])
  | acc, b :: bs =>
    if isDigit b then parseNatAux (acc * 10 + (b - 48)) bs else (acc, b :: bs)

/-- Parse a nonempty run of decimal digits. -/
def parseNatBytes : List Nat → Option (Nat × List Nat)
  | [] => none
  | b :: bs => if isDigit b then some (parseNatAux 0 (b :: bs)) else none

/-- Expect an exact literal byte prefix, return the remainder. -/
def parseLit (lit l : List Nat) : Option (List Nat) :=
  if l.take lit.length = lit then some (l.drop lit.length) else none

/-- Literal before the `sampleRate` value in a rendered metadata map. -/
def litA : List Nat :=
  strBytes "\x7b" ++ strBytes "\"" ++ strBytes "sampleRate" ++ strBytes "\": "

/-- Literal before the `dataLength` value. -/
def litB : List Nat :=
  strBytes ", " ++ strBytes "\"" ++ strBytes "dataLength" ++ strBytes "\": "

/-- Literal before the `checksum` value. -/
def litC : List Nat :=
  strBytes ", " ++ strBytes "\"" ++ strBytes "checksum" ++ strBytes "\": "

/-- Literal before the `timestamp` value. -/
def litD : List Nat :=
  strBytes ", " ++ strBytes "\"" ++ strBytes "timestamp" ++ strBytes "\": "

/-- Literal after the `timestamp` value, to the closing brace. -/
def litE : List Nat :=
  strBytes ", " ++ strBytes "\"" ++ strBytes "server_sent_to_stt" ++ strBytes "\": " ++
    strBytes "true" ++ strBytes "\x7d"

/-- Modelled from the spec: the metadata parser of a disconnected
reference decoder (the real decoder lives on the server, outside this
repository).  It expects exactly the textual map this client renders and
recovers the four numeric fields. -/
def parseMeta (l : List Nat) : Option Meta :=
  (parseLit litA l).bind fun r1 =>
  (parseNatBytes r1).bind fun p1 =>
  (parseLit litB p1.2).bind fun r2 =>
  (parseNatBytes r2).bind fun p2 =>
  (parseLit litC p2.2).bind fun r3 =>
  (parseNatBytes r3).bind fun p3 =>
  (parseLit litD p3.2).bind fun r4 =>
  (parseNatBytes r4).bind fun p4 =>
  (parseLit litE p4.2).bind fun r5 =>
  if r5 = [] then some ⟨p1.1, p2.1, p3.1, p4.1⟩ else none

/-- Read a 4-byte little-endian unsigned integer. -/
def readLE32 : List Nat → Option (Nat × List Nat)
  | b0 :: b1 :: b2 :: b3 :: rest =>
    some (b0 + 256 * b1 + 65536 * b2 + 16777216 * b3, rest)
  | _ => none

/-- Modelled from the spec: the reference `decode` of a disconnected test
harness — read the 4-byte little-endian metadata length, split the
metadata from the audio at exactly that boundary, parse the metadata. -/
def decode (msg : List Nat) : Option (Meta × List Nat) :=
  (readLE32 msg).bind fun p =>
  if p.1 ≤ p.2.length then
    (parseMeta (p.2.take p.1)).map fun m => (m, p.2.drop p.1)
  else none

/-! ### Codec lemmas -/

/-- `Option.bind` on a `some`, for stepwise parser reasoning. -/
theorem optBind_some {α β : Type} (a : α) (f : α → Option β) :
    (some a).bind f = f a := rfl

/-- `parseLit` consumes exactly its literal. -/
theorem parseLit_append (lit r : List Nat) : parseLit lit (lit ++ r) = some r := by
  simp [parseLit, List.take_left, List.drop_left]

/-- `parseLit` on the bare literal leaves nothing. -/
theorem parseLit_self (lit : List Nat) : parseLit lit lit = some [] := by
  simp [parseLit, List.take_length, List.drop_length]

/-- No leading decimal digit (so a digit run cannot leak into it). -/
def noDigitHeadB : List Nat → Bool
  | [] => true
  | b :: _ => !isDigit b

/-- A nonempty digit-free-headed prefix keeps the property under append. -/
theorem noDigitHeadB_append {l : List Nat} (X : List Nat)
    (h : noDigitHeadB l = true) (hne : l ≠ []) : noDigitHeadB (l ++ X) = true := by
  cases l with
  | nil => exact absurd rfl hne
  | cons b bs => simpa [noDigitHeadB] using h

/-- `natDigits` always yields at least one byte. -/
theorem natDigits_ne_nil (n : Nat) : natDigits n ≠ [] := by
  unfold natDigits
  split
  · simp
  · simp [Nat.digits_ne_nil_iff_ne_zero, *]

/-- Every byte of `natDigits` is an ASCII digit. -/
theorem natDigits_isDigit {n d : Nat} (hd : d ∈ natDigits n) : isDigit d = true := by
  unfold natDigits at hd
  split at hd
  · simp at hd
    subst hd
    decide
  · simp only [List.mem_map, List.mem_reverse] at hd
    obtain ⟨x, hx, rfl⟩ := hd
    have hxl := Nat.digits_lt_base (by norm_num) hx
    simp only [isDigit, decide_eq_true_eq]
    omega

/-- Folding base-10 over a big-endian digit list. -/
theorem foldl_digits (L : List Nat) (acc : Nat) :
    L.foldl (fun a d => a * 10 + d) acc =
      acc * 10 ^ L.length + Nat.ofDigits 10 L.reverse := by
  induction L generalizing acc with
  | nil => simp
  | cons x L ih =>
    rw [List.foldl_cons, ih, List.reverse_cons, Nat.ofDigits_append,
      List.length_reverse, List.length_cons]
    simp [pow_succ]
    ring

/-- Reading back the decimal rendering of `n` recovers `n`. -/
theorem natDigits_val (n : Nat) :
    (natDigits n).foldl (fun a d => a * 10 + (d - 48)) 0 = n := by
  unfold natDigits
  split
  · simp_all
  · rw [List.foldl_map]
    simp only [Nat.add_sub_cancel]
    rw [foldl_digits, List.reverse_reverse, Nat.ofDigits_digits]
    simp

/-- `parseNatAux` consumes exactly a digit run. -/
theorem parseNatAux_append (ds : List Nat) (hds : ∀ d ∈ ds, isDigit d = true)
    (rest : List Nat) (hrest : noDigitHeadB rest = true) (acc : Nat) :
    parseNatAux acc (ds ++ rest) =
      (ds.foldl (fun a d => a * 10 + (d - 48)) acc, rest) := by
  induction ds generalizing acc with
  | nil =>
    cases rest with
    | nil => rfl
    | cons b bs =>
      have hb : isDigit b = false := by simpa [noDigitHeadB] using hrest
      simp [parseNatAux, hb]
  | cons d ds ih =>
    have hd : isDigit d = true := hds d (List.mem_cons_self d ds)
    simp only [List.cons_append, parseNatAux, hd, if_true, List.foldl_cons]
    exact ih (fun x hx => hds x (List.mem_cons_of_mem d hx)) _

/-- `parseNatBytes` inverts `natDigits` whatever follows, as long as the
follower does not start with a digit. -/
theorem parseNatBytes_natDigits (n : Nat) (rest : List Nat)
    (hrest : noDigitHeadB rest = true) :
    parseNatBytes (natDigits n ++ rest) = some (n, rest) := by
  have hall : ∀ d ∈ natDigits n, isDigit d = true := fun _ hd => natDigits_isDigit hd
  have hval := natDigits_val n
  have haux := parseNatAux_append (natDigits n) hall rest hrest 0
  cases h : natDigits n with
  | nil => exact absurd h (natDigits_ne_nil n)
  | cons d ds =>
    rw [h] at hall hval haux
    have hd : isDigit d = true := hall d (List.mem_cons_self d ds)
    simp only [List.cons_append, parseNatBytes, hd, if_true]
    rw [← List.cons_append, haux, hval]

/-- The rendered metadata map, split at the parser's literals. -/
theorem jsonDumps_metaEntries (sr dl cs ts : Nat) :
    jsonDumps (metaEntries sr dl cs ts) =
      litA ++ natDigits sr ++ litB ++ natDigits dl ++ litC ++ natDigits cs ++
        litD ++ natDigits ts ++ litE := by
  simp [jsonDumps, metaEntries, dumpEntries, dumpEntry, dumpVal,
    litA, litB, litC, litD, litE, List.append_assoc]

/-- The reference parser recovers every field of the rendered map. -/
theorem parseMeta_jsonDumps (sr dl cs ts : Nat) :
    parseMeta (jsonDumps (metaEntries sr dl cs ts)) = some ⟨sr, dl, cs, ts⟩ := by
  have hB : ∀ X : List Nat, noDigitHeadB (litB ++ X) = true :=
    fun X => noDigitHeadB_append X (by decide) (by decide)
  have hC : ∀ X : List Nat, noDigitHeadB (litC ++ X) = true :=
    fun X => noDigitHeadB_append X (by decide) (by decide)
  have hD : ∀ X : List Nat, noDigitHeadB (litD ++ X) = true :=
    fun X => noDigitHeadB_append X (by decide) (by decide)
  have hE : noDigitHeadB litE = true := by decide
  rw [jsonDumps_metaEntries]
  simp only [List.append_assoc]
  unfold parseMeta
  rw [parseLit_append]
  rw [optBind_some]
  rw [parseNatBytes_natDigits sr _ (hB _)]
  rw [optBind_some]
  rw [parseLit_append]
  rw [optBind_some]
  rw [parseNatBytes_natDigits dl _ (hC _)]
  rw [optBind_some]
  rw [parseLit_append]
  rw [optBind_some]
  rw [parseNatBytes_natDigits cs _ (hD _)]
  rw [optBind_some]
  rw [parseLit_append]
  rw [optBind_some]
  rw [parseNatBytes_natDigits ts _ hE]
  rw [optBind_some]
  rw [parseLit_self]
  rw [optBind_some]
  rfl

/-- Reading back the 4-byte little-endian length prefix. -/
theorem readLE32_le32 (L : Nat) (hL : L < 2 ^ 32) (rest : List Nat) :
    readLE32 (le32 L ++ rest) = some (L, rest) := by
  simp only [le32, List.cons_append, List.nil_append, readLE32, Option.some.injEq,
    Prod.mk.injEq, and_true]
  omega

/-- Wrapping through a signed 64-bit accumulator does not change the low
32 bits. -/
theorem wrapInt64_emod (s : Int) : wrapInt64 s % 2 ^ 32 = s % 2 ^ 32 := by
  unfold wrapInt64
  omega

/-- The checksum fits an unsigned 32-bit integer. -/
theorem checksum_lt {audio : List Nat} {cs : Nat}
    (h : checksum_int16 audio = some cs) : cs < 2 ^ 32 := by
  unfold checksum_int16 at h
  split at h
  · have hpos : (0 : Int) < 2 ^ 32 := by norm_num
    have hmod := Int.emod_lt_of_pos (wrapInt64 (toSamples audio).sum) hpos
    have := Option.some.inj h
    omega
  · exact absurd h (by simp)

/-- Digit-count bound: below `10 ^ k`, at most `k` rendered digits. -/
theorem natDigits_length_le {n k : Nat} (hk : 1 ≤ k) (hn : n < 10 ^ k) :
    (natDigits n).length ≤ k := by
  unfold natDigits
  split
  · simpa
  · simp only [List.length_map, List.length_reverse]
    by_contra hcon
    push_neg at hcon
    have hne : n ≠ 0 := by assumption
    have h10 : (10 : Nat) ^ (Nat.digits 10 n).length ≤ 10 * n :=
      Nat.base_pow_length_digits_le 10 n (by norm_num) hne
    have hk1 : (10 : Nat) ^ (k + 1) ≤ 10 ^ (Nat.digits 10 n).length :=
      Nat.pow_le_pow_right (by norm_num) hcon
    rw [pow_succ] at hk1
    have : 10 ^ k ≤ n := by
      have := le_trans hk1 h10
      omega
    omega

/-- Size bound of the rendered metadata map, under the data model's field
bounds (`sampleRate`, `dataLength`, `checksum` unsigned 32-bit,
`timestamp` unsigned 64-bit). -/
theorem metaJson_length_lt (sr dl cs ts : Nat) (hsr : sr < 2 ^ 32)
    (hdl : dl < 2 ^ 32) (hcs : cs < 2 ^ 32) (hts : ts < 2 ^ 64) :
    (jsonDumps (metaEntries sr dl cs ts)).length < 2 ^ 32 := by
  have h1 : (natDigits sr).length ≤ 10 :=
    natDigits_length_le (by norm_num) (lt_trans hsr (by norm_num))
  have h2 : (natDigits dl).length ≤ 10 :=
    natDigits_length_le (by norm_num) (lt_trans hdl (by norm_num))
  have h3 : (natDigits cs).length ≤ 10 :=
    natDigits_length_le (by norm_num) (lt_trans hcs (by norm_num))
  have h4 : (natDigits ts).length ≤ 20 :=
    natDigits_length_le (by norm_num) (lt_trans hts (by norm_num))
  have hA : litA.length = 15 := by decide
  have hB : litB.length = 16 := by decide
  have hC : litC.length = 14 := by decide
  have hD : litD.length = 15 := by decide
  have hE : litE.length = 29 := by decide
  rw [jsonDumps_metaEntries]
  simp only [List.length_append, hA, hB, hC, hD, hE]
  omega

/-- When `frame` succeeds, its output is exactly the length-prefixed
metadata followed by the untouched audio. -/
theorem frame_ok_layout {sr nowMs : Nat} {audio msg : List Nat}
    (hok : frame sr nowMs audio = .ok msg) :
    ∃ cs, checksum_int16 audio = some cs ∧
      (jsonDumps (metaEntries sr (audio.length / 2) cs nowMs)).length < 2 ^ 32 ∧
      msg = le32 (jsonDumps (metaEntries sr (audio.length / 2) cs nowMs)).length ++
        jsonDumps (metaEntries sr (audio.length / 2) cs nowMs) ++ audio := by
  unfold frame at hok
  cases hcs : checksum_int16 audio with
  | none => rw [hcs] at hok; exact absurd hok (by simp)
  | some cs =>
    rw [hcs] at hok
    refine ⟨cs, rfl, ?_⟩
    simp only [structPackLE32] at hok
    by_cases hlt : (jsonDumps (metaEntries sr (audio.length / 2) cs nowMs)).length < 2 ^ 32
    · rw [if_pos hlt] at hok
      exact ⟨hlt, (Except.ok.inj hok).symm⟩
    · rw [if_neg hlt] at hok
      exact absurd hok (by simp)

/-- A successful `frame` output decodes back to its fields. -/
theorem decode_frame {sr nowMs : Nat} {audio msg : List Nat}
    (hok : frame sr nowMs audio = .ok msg) :
    ∃ cs, checksum_int16 audio = some cs ∧
      decode msg = some (⟨sr, audio.length / 2, cs, nowMs⟩, audio) := by
  obtain ⟨cs, hcs, hlt, hmsg⟩ := frame_ok_layout hok
  refine ⟨cs, hcs, ?_⟩
  subst hmsg
  unfold decode
  rw [List.append_assoc, readLE32_le32 _ hlt, optBind_some]
  have hle : (jsonDumps (metaEntries sr (audio.length / 2) cs nowMs)).length ≤
      (jsonDumps (metaEntries sr (audio.length / 2) cs nowMs) ++ audio).length := by
    simp
  rw [if_pos hle, List.take_left, List.drop_left, parseMeta_jsonDumps]
  rfl

/-- `frame` succeeds on any even-length audio whose derived fields fit
the data model's bounds. -/
theorem frame_ok_of_bounds {sr nowMs : Nat} {a : List Nat}
    (heven : a.length % 2 = 0) (hlen : a.length < 2 ^ 33)
    (hsr : sr < 2 ^ 32) (hts : nowMs < 2 ^ 64) :
    frame sr nowMs a = .ok
      (le32 (jsonDumps (metaEntries sr (a.length / 2)
          ((wrapInt64 (toSamples a).sum % 2 ^ 32).toNat) nowMs)).length ++
        jsonDumps (metaEntries sr (a.length / 2)
          ((wrapInt64 (toSamples a).sum % 2 ^ 32).toNat) nowMs) ++ a) := by
  have hcs : checksum_int16 a = some ((wrapInt64 (toSamples a).sum % 2 ^ 32).toNat) := by
    unfold checksum_int16
    rw [if_pos heven]
  have hcslt : (wrapInt64 (toSamples a).sum % 2 ^ 32).toNat < 2 ^ 32 := checksum_lt hcs
  have hdl : a.length / 2 < 2 ^ 32 := by omega
  have hmlt := metaJson_length_lt sr (a.length / 2)
    ((wrapInt64 (toSamples a).sum % 2 ^ 32).toNat) nowMs hsr hdl hcslt hts
  unfold frame
  rw [hcs]
  simp only [structPackLE32, if_pos hmlt]

/-- C1: frame-codec round-trip.  For every even-length byte sequence `a`
(with the derived metadata fields inside the data model's unsigned
bounds), `frame` produces exactly the 4-byte little-endian metadata
length, then the metadata map, then `a` unchanged, and the reference
decode recovers `sampleRate = sr`, `dataLength = a.length / 2`,
`checksum = checksum_int16 a`, the timestamp, and the audio bytes `a`:
the metadata-length prefix exactly locates the audio boundary. -/
theorem C1_frame_roundtrip (sr nowMs : Nat) (a : List Nat)
    (heven : a.length % 2 = 0) (hlen : a.length < 2 ^ 33)
    (hsr : sr < 2 ^ 32) (hts : nowMs < 2 ^ 64) :
    ∃ cs, checksum_int16 a = some cs ∧
      frame sr nowMs a = .ok
        (le32 (jsonDumps (metaEntries sr (a.length / 2) cs nowMs)).length ++
          jsonDumps (metaEntries sr (a.length / 2) cs nowMs) ++ a) ∧
      decode (le32 (jsonDumps (metaEntries sr (a.length / 2) cs nowMs)).length ++
          jsonDumps (metaEntries sr (a.length / 2) cs nowMs) ++ a) =
        some (⟨sr, a.length / 2, cs, nowMs⟩, a) := by
  have hcs : checksum_int16 a = some ((wrapInt64 (toSamples a).sum % 2 ^ 32).toNat) := by
    unfold checksum_int16
    rw [if_pos heven]
  have hok := frame_ok_of_bounds heven hlen hsr hts
  refine ⟨_, hcs, hok, ?_⟩
  obtain ⟨cs2, hcs2, hdec⟩ := decode_frame hok
  rw [hcs] at hcs2
  obtain rfl := Option.some.inj hcs2
  exact hdec

/-- Witness for C1 at `sr = 16000`, `nowMs = 5`, `a = [1, 0]`. -/
theorem C1_frame_roundtrip_witness :
    ([ (1 : Nat), 0].length % 2 = 0) ∧
    ∃ cs, checksum_int16 [1, 0] = some cs ∧
      frame 16000 5 [1, 0] = .ok
        (le32 (jsonDumps (metaEntries 16000 ([ (1 : Nat), 0].length / 2) cs 5)).length ++
          jsonDumps (metaEntries 16000 ([ (1 : Nat), 0].length / 2) cs 5) ++ [1, 0]) ∧
      decode (le32 (jsonDumps (metaEntries 16000 ([ (1 : Nat), 0].length / 2) cs 5)).length ++
          jsonDumps (metaEntries 16000 ([ (1 : Nat), 0].length / 2) cs 5) ++ [1, 0]) =
        some (⟨16000, [ (1 : Nat), 0].length / 2, cs, 5⟩, [1, 0]) :=
  ⟨by decide, C1_frame_roundtrip 16000 5 [1, 0] (by decide) (by decide) (by decide) (by decide)⟩

/-- C2: the checksum of an even-length byte sequence is the sum of its
signed 16-bit little-endian samples, accumulated in wrapping signed
64-bit arithmetic and masked to the low 32 bits; this equals the plain
sample sum modulo `2 ^ 32`, lies in `[0, 2 ^ 32)`, and is deterministic
in its input. -/
theorem C2_checksum_spec (a : List Nat) (h : a.length % 2 = 0) :
    checksum_int16 a = some ((wrapInt64 (toSamples a).sum % 2 ^ 32).toNat) ∧
    checksum_int16 a = some (((toSamples a).sum % 2 ^ 32).toNat) ∧
    (∀ cs, checksum_int16 a = some cs → cs < 2 ^ 32) ∧
    (∀ b : List Nat, a = b → checksum_int16 a = checksum_int16 b) := by
  have h1 : checksum_int16 a = some ((wrapInt64 (toSamples a).sum % 2 ^ 32).toNat) := by
    unfold checksum_int16
    rw [if_pos h]
  refine ⟨h1, ?_, fun _ hcs => checksum_lt hcs, fun b hb => by rw [hb]⟩
  rw [h1, wrapInt64_emod]

/-- Witness for C2 at `a = [0, 128, 0, 128]` (two samples of `-32768`). -/
theorem C2_checksum_spec_witness :
    ([ (0 : Nat), 128, 0, 128].length % 2 = 0) ∧
    (checksum_int16 [0, 128, 0, 128] =
      some ((wrapInt64 (toSamples [0, 128, 0, 128]).sum % 2 ^ 32).toNat) ∧
    checksum_int16 [0, 128, 0, 128] =
      some (((toSamples [0, 128, 0, 128]).sum % 2 ^ 32).toNat) ∧
    (∀ cs, checksum_int16 [0, 128, 0, 128] = some cs → cs < 2 ^ 32) ∧
    (∀ b : List Nat, [0, 128, 0, 128] = b →
      checksum_int16 [0, 128, 0, 128] = checksum_int16 b)) :=
  ⟨by decide, C2_checksum_spec [0, 128, 0, 128] (by decide)⟩

/-- C8: an odd byte count makes `frame` fail with `InvalidAudioLength`
(no frame is produced); every even-length input, with its derived fields
inside the data model's unsigned bounds, encodes successfully. -/
theorem C8_invalid_audio_length (sr nowMs : Nat) (a : List Nat) :
    (a.length % 2 = 1 → frame sr nowMs a = .error .InvalidAudioLength) ∧
    (a.length % 2 = 0 → a.length < 2 ^ 33 → sr < 2 ^ 32 → nowMs < 2 ^ 64 →
      ∃ msg, frame sr nowMs a = .ok msg) := by
  constructor
  · intro hodd
    unfold frame checksum_int16
    rw [if_neg (by omega)]
  · intro heven hlen hsr hts
    exact ⟨_, frame_ok_of_bounds heven hlen hsr hts⟩

/-- Witness for C8: odd input `[1]` fails, even input `[1, 2]` encodes. -/
theorem C8_invalid_audio_length_witness :
    frame 16000 5 [1] = .error .InvalidAudioLength ∧
    ∃ msg, frame 16000 5 [1, 2] = .ok msg :=
  ⟨(C8_invalid_audio_length 16000 5 [1]).1 (by decide),
    (C8_invalid_audio_length 16000 5 [1, 2]).2 (by decide) (by decide)
      (by decide) (by decide)⟩

/-- C9: the metadata map contains exactly the five keys `sampleRate`,
`dataLength`, `checksum`, `timestamp`, `server_sent_to_stt`; the
`server_sent_to_stt` flag is `true` in every frame; the capture
timestamp is serialized under `timestamp` (no `timestampMs` key exists);
and every successful `frame` output embeds exactly this map. -/
theorem C9_metadata_keys (sr dl cs ts : Nat) :
    (metaEntries sr dl cs ts).map Prod.fst =
      [ "sampleRate", "dataLength", "checksum", "timestamp", "server_sent_to_stt"] ∧
    (metaEntries sr dl cs ts).lookup "server_sent_to_stt" = some (.bool true) ∧
    (metaEntries sr dl cs ts).lookup "timestamp" = some (.num ts) ∧
    "timestampMs" ∉ (metaEntries sr dl cs ts).map Prod.fst ∧
    (∀ audio msg : List Nat, frame sr ts audio = .ok msg → ∃ cs2,
      checksum_int16 audio = some cs2 ∧
      msg = le32 (jsonDumps (metaEntries sr (audio.length / 2) cs2 ts)).length ++
        jsonDumps (metaEntries sr (audio.length / 2) cs2 ts) ++ audio) := by
  refine ⟨rfl, rfl, rfl, ?_, fun audio msg hok => ?_⟩
  · intro hmem
    simp [metaEntries] at hmem
  · obtain ⟨cs2, hcs2, _, hmsg⟩ := frame_ok_layout hok
    exact ⟨cs2, hcs2, hmsg⟩

/-- Witness for C9 at a concrete frame of audio `[1, 0]`. -/
theorem C9_metadata_keys_witness :
    ∃ cs2, checksum_int16 [1, 0] = some cs2 ∧
      le32 (jsonDumps (metaEntries 16000 ([ (1 : Nat), 0].length / 2)
          ((wrapInt64 (toSamples [1, 0]).sum % 2 ^ 32).toNat) 5)).length ++
        jsonDumps (metaEntries 16000 ([ (1 : Nat), 0].length / 2)
          ((wrapInt64 (toSamples [1, 0]).sum % 2 ^ 32).toNat) 5) ++ [1, 0] =
      le32 (jsonDumps (metaEntries 16000 ([ (1 : Nat), 0].length / 2) cs2 5)).length ++
        jsonDumps (metaEntries 16000 ([ (1 : Nat), 0].length / 2) cs2 5) ++ [1, 0] :=
  (C9_metadata_keys 16000 1 1 5).2.2.2.2 [1, 0] _
    (frame_ok_of_bounds (by decide) (by decide) (by decide) (by decide))

/-! ### Receiver: inbound message classification (`PTTClient.receiver`) -/

/-- JSON values as far as the receiver inspects them: its classifier
only ever compares field values against string constants. -/
inductive JVal
  | str (s : String)
  | other
  deriving DecidableEq

/-- A parsed JSON object message (a dict keyed by strings). -/
def JObj := List (String × JVal)

/-- `data.get(k)` restricted to string results: `some s` exactly when
field `k` is present with string value `s` (a missing field or a
non-string value compares unequal to every string constant). -/
def jgetStr (o : JObj) (k : String) : Option String :=
  match (o.find? fun p => p.1 == k).map Prod.snd with
  | some (.str s) => some s
  | _ => none

/-- Events the receiver surfaces. -/
inductive RxEvent
  | corruption (message : String)
  | finalSentence (text : String)
  | recordingStart
  | recordingStop
  | generic
  deriving DecidableEq

/-- The `type` values the receiver suppresses as progress noise. -/
def suppressedTypes : List String :=
  [ "realtime", "vad_detect_start", "vad_detect_stop", "transcription_start",
    "start_turn_detection", "stop_turn_detection", "wakeword_detected",
    "wakeword_detection_start", "wakeword_detection_end"]

/-- Is the message's `type` one of the suppressed progress kinds? -/
def typeSuppressed (o : JObj) : Bool :=
  match jgetStr o "type" with
  | some s => s ∈ suppressedTypes
  | none => false

/-- One pass of `PTTClient.receiver`'s classification chain over a
parsed message: the event it surfaces (if any) and whether it breaks
the loop (which happens exactly when `running` is cleared). -/
def receiverStep (o : JObj) : Option RxEvent × Bool :=
  if jgetStr o "type" = some "error" ∧ jgetStr o "error" = some "data_corruption" then
    (some (.corruption ((jgetStr o "message").getD "")), true)
  else if jgetStr o "type" = some "fullSentence" then
    (some (.finalSentence ((jgetStr o "text").getD "")), false)
  else if jgetStr o "type" = some "recording_start" then (some .recordingStart, false)
  else if jgetStr o "type" = some "recording_stop" then (some .recordingStop, false)
  else if !typeSuppressed o then (some .generic, false)
  else (none, false)

/-- An inbound data-channel message: `invalid` when `json.loads` raises,
otherwise the parsed object. -/
inductive InMsg
  | invalid
  | valid (o : JObj)

/-- `PTTClient.receiver`'s loop over inbound messages, threading the
`running` flag: invalid JSON is skipped (`continue`), a corruption
report clears `running` and breaks, every other message is classified
and the loop continues.  Returns the final `running` flag and the
surfaced events in order. -/
def receiverRun (running : Bool) : List InMsg → Bool × List RxEvent
  | [] => (running, [])
  | .invalid :: rest => receiverRun running rest
  | .valid o :: rest =>
    match receiverStep o with
    | (ev, true) => (false, ev.toList)
    | (ev, false) =>
      let r := receiverRun running rest
      (r.1, ev.toList ++ r.2)

/-! ### Capture/send worker, activation handlers (`audio_worker`,
`start_hotkeys`, `toggle_stdin_loop`) -/

/-- Observable submissions into the event loop that owns the network
connection.  `finalize` is one `control_stop_and_clear` call — the
spec's finalize-now request, sent as the stop / clear-queue command
pair.  `submitFrame t a` is `run_coroutine_threadsafe(ws.send(frame a))`
with capture timestamp `t`. -/
inductive Action
  | submitFrame (nowMs : Nat) (audio : List Nat)
  | finalize
  deriving DecidableEq

/-- The mutable client fields the activation handlers and the audio
worker read and write, plus the worker-local `was_active` flag.
`ws_conn` models `self.ws is not None`, `loop_set` models
`self.loop is not None`, `stream_open` models `self.stream is not None`. -/
structure Client where
  running : Bool
  stop_threads : Bool
  ptt_active : Bool
  was_active : Bool
  stream_open : Bool
  ws_conn : Bool
  loop_set : Bool
  current_chunk : Nat
  chunks_sent : Nat
  deriving DecidableEq

/-- One iteration of `PTTClient.audio_worker`'s loop (success path of
the stream read and sends, which is the scenario of every claim about
it): `micRead` is the byte string `stream.read` returns on the active
path, `nowMs` the capture timestamp of frames submitted this iteration.
When the loop guard `not stop_threads and running` fails, the thread
exits, so the iteration performs nothing. -/
def workerIter (c : Client) (micRead : List Nat) (nowMs : Nat) : Client × List Action :=
  if c.stop_threads || !c.running then (c, [])
  else if !c.ptt_active then
    if c.was_active then
      let silent : List Nat := List.replicate (c.current_chunk * 2) 0
      let acts :=
        (if c.ws_conn then [Action.submitFrame nowMs silent, Action.submitFrame nowMs silent]
         else []) ++
        (if c.loop_set then [Action.finalize] else [])
      ({ c with was_active := false, stream_open := false }, acts)
    else (c, [])
  else
    let c1 := if !c.was_active then { c with was_active := true, stream_open := true } else c
    if c1.ws_conn && c1.running then
      ({ c1 with chunks_sent := c1.chunks_sent + 1 }, [Action.submitFrame nowMs micRead])
    else (c1, [])

/-- `on_press` (Space) of the global-hotkey listener. -/
def onPressSpace (c : Client) : Client × List Action :=
  if !c.ptt_active then ({ c with ptt_active := true }, []) else (c, [])

/-- `on_release` (Space) of the global-hotkey listener: deactivate and
immediately submit the finalize-now request. -/
def onReleaseSpace (c : Client) : Client × List Action :=
  if c.ptt_active then
    ({ c with ptt_active := false }, if c.loop_set then [Action.finalize] else [])
  else (c, [])

/-- A Space keypress in the terminal toggle loop: flip `ptt_active`
(the toggle handler itself submits nothing). -/
def onToggleSpace (c : Client) : Client × List Action :=
  ({ c with ptt_active := !c.ptt_active }, [])

/-- An event of the interleaved client system: an input-modality
callback or one worker-loop iteration. -/
inductive SysEvent
  | press
  | release
  | toggle
  | worker (micRead : List Nat) (nowMs : Nat)

/-- Dispatch one system event. -/
def sysStep (c : Client) : SysEvent → Client × List Action
  | .press => onPressSpace c
  | .release => onReleaseSpace c
  | .toggle => onToggleSpace c
  | .worker m t => workerIter c m t

/-- Run a sequence of system events, concatenating the submissions in
order. -/
def sysRun (c : Client) : List SysEvent → Client × List Action
  | [] => (c, [])
  | e :: es =>
    let s := sysStep c e
    let r := sysRun s.1 es
    (r.1, s.2 ++ r.2)

/-- Number of finalize-now requests in a submission list. -/
def finalizeCount (l : List Action) : Nat := l.count Action.finalize

/-! ### Reconnect policy (`PTTClient.run`) -/

/-- Advance of `chunk_index` after a terminal session: one entry down
the table unless already at its last entry. -/
def advanceIndex (i : Nat) : Nat :=
  if i < CHUNK_SIZES.length - 1 then i + 1 else i

/-- The chunk size at a table index. -/
def chunkAt (i : Nat) : Nat := CHUNK_SIZES.getD i 0

/-- Per-terminal-session bookkeeping of `PTTClient.run`: increment
`retries`, advance the chunk index, compute the backoff
`base_backoff * 2 ** (retries - 1)` seconds with the incremented
`retries` (exact in integers since `base_backoff = 1.0`).  Returns
(new retries, new chunk index, backoff seconds). -/
def runStep (retries i : Nat) : Nat × Nat × Nat :=
  (retries + 1, advanceIndex i, 2 ^ ((retries + 1) - 1))

/-- One entry of the reconnect-loop trace. -/
inductive RunEvent
  | session (chunk : Nat)
  | sleep (secs : Nat)
  deriving DecidableEq

/-- `PTTClient.run`'s retry loop in the scenario where every session
terminates (rejection, transport failure or exit): while
`retries ≤ max_retries (= 6)`, run a session at the current chunk size,
then increment `retries`, advance the chunk index, and sleep the
exponential backoff. -/
def runLoop (retries i : Nat) : List RunEvent :=
  if retries ≤ 6 then
    RunEvent.session (chunkAt i) :: RunEvent.sleep (runStep retries i).2.2 ::
      runLoop (runStep retries i).1 (runStep retries i).2.1
  else []
termination_by 7 - retries
decreasing_by simp [runStep]; omega

/-- The chunk sizes of the sessions of a trace, in order. -/
def sessionChunks (t : List RunEvent) : List Nat :=
  t.filterMap fun e => match e with | .session c => some c | _ => none

/-- The backoff delays that are immediately followed by a session start
(the delays slept before a retry attempt). -/
def delaysBeforeSessions : List RunEvent → List Nat
  | .sleep s :: .session c :: rest => s :: delaysBeforeSessions (.session c :: rest)
  | _ :: rest => delaysBeforeSessions rest
  | [] => []

/-! ### Claims about the receiver, worker, activation and reconnect -/

/-- C10: an inbound data-channel message that is not valid JSON is
silently discarded: it produces no event, leaves the `running` flag and
session state unchanged, and every subsequent message is still received
and classified exactly as it would have been. -/
theorem C10_invalid_json_skipped (running : Bool) (pre post : List InMsg) :
    receiverRun running (pre ++ .invalid :: post) = receiverRun running (pre ++ post) := by
  induction pre with
  | nil => rfl
  | cons m pre ih =>
    cases m with
    | invalid => simpa [receiverRun] using ih
    | valid o =>
      rcases h : receiverStep o with ⟨ev, b⟩
      simp only [List.cons_append, receiverRun, h]
      cases b
      · simp [ih]
      · rfl

/-- C3: a mid-session message with type `error` and error
`data_corruption` makes the receiver clear `running`, surface the
rejection, and break (later inbound messages of that session are not
processed); with `running` false the worker loop exits and submits no
further frames; and the run loop's per-terminal-session step increments
the retry counter by one and, when entries remain in the descending
table, moves to a strictly smaller chunk size. -/
theorem C3_rejection_handling (o : JObj) (rest : List InMsg) (r : Bool)
    (htype : jgetStr o "type" = some "error")
    (herr : jgetStr o "error" = some "data_corruption") :
    receiverRun r (.valid o :: rest) =
      (false, [RxEvent.corruption ((jgetStr o "message").getD "")]) ∧
    (∀ (c : Client) (mic : List Nat) (now : Nat), c.running = false →
      workerIter c mic now = (c, [])) ∧
    (∀ retries i, (runStep retries i).1 = retries + 1 ∧
      (i < CHUNK_SIZES.length - 1 →
        chunkAt (runStep retries i).2.1 < chunkAt i)) := by
  refine ⟨?_, ?_, ?_⟩
  · have hstep : receiverStep o =
        (some (.corruption ((jgetStr o "message").getD "")), true) := by
      unfold receiverStep
      rw [if_pos ⟨htype, herr⟩]
    simp [receiverRun, hstep]
  · intro c mic now hrun
    unfold workerIter
    rw [hrun]
    simp
  · intro retries i
    refine ⟨rfl, fun hi => ?_⟩
    have hi2 : i < 2 := by simpa [CHUNK_SIZES] using hi
    interval_cases i
    · show chunkAt (advanceIndex 0) < chunkAt 0
      decide
    · show chunkAt (advanceIndex 1) < chunkAt 1
      decide

/-- A concrete corruption report. -/
def corruptionDemo : JObj :=
  [ ( "type", .str "error"), ( "error", .str "data_corruption"),
    ( "message", .str "checksum mismatch")]

/-- A concrete client whose session has just been terminated
(`running = false`). -/
def stoppedDemo : Client := ⟨false, false, true, true, true, true, true, 4096, 0⟩

/-- Witness for C3 at the concrete corruption message and client. -/
theorem C3_rejection_handling_witness :
    receiverRun true [InMsg.valid corruptionDemo] =
      (false, [RxEvent.corruption ((jgetStr corruptionDemo "message").getD "")]) ∧
    workerIter stoppedDemo [] 0 = (stoppedDemo, []) ∧
    (runStep 0 0).1 = 0 + 1 ∧ chunkAt (runStep 0 0).2.1 < chunkAt 0 := by
  have h := C3_rejection_handling corruptionDemo [] true (by decide) (by decide)
  exact ⟨h.1, h.2.1 stoppedDemo [] 0 rfl, (h.2.2 0 0).1, (h.2.2 0 0).2 (by decide)⟩

/-- The full reconnect trace of one client run in which every session
terminates: seven sessions (the initial one plus six retries), and the
backoff slept after each terminal session — including the final 64 s
sleep after the last session, which precedes no further session. -/
theorem runTrace_eq :
    runLoop 0 0 =
      [RunEvent.session 4096, RunEvent.sleep 1, RunEvent.session 2048, RunEvent.sleep 2,
       RunEvent.session 1024, RunEvent.sleep 4, RunEvent.session 1024, RunEvent.sleep 8,
       RunEvent.session 1024, RunEvent.sleep 16, RunEvent.session 1024, RunEvent.sleep 32,
       RunEvent.session 1024, RunEvent.sleep 64] := by
  simp [runLoop, runStep, advanceIndex, chunkAt, CHUNK_SIZES]
  all_goals decide

/-- The session chunk sizes of the full reconnect trace. -/
theorem sessionChunks_eq :
    sessionChunks (runLoop 0 0) = [4096, 2048, 1024, 1024, 1024, 1024, 1024] := by
  rw [runTrace_eq]
  decide

/-- C4: with `max_retries = 6` and `base_backoff = 1.0 s`, the delay
slept before retry attempt `k` (1-indexed; retry attempt `k` is the
`k+1`-st session) is `2 ^ (k - 1)` seconds, so the delays preceding
retry attempts are exactly 1, 2, 4, 8, 16, 32 s; seven sessions run in
total (the initial session plus six retry attempts), i.e. after the 6th
failed retry attempt no further session is started; and the per-session
backoff formula is `base * 2 ^ (attempt - 1)` with `attempt` the
just-incremented retry counter. -/
theorem C4_backoff_schedule :
    delaysBeforeSessions (runLoop 0 0) = [1, 2, 4, 8, 16, 32] ∧
    (sessionChunks (runLoop 0 0)).length = 7 ∧
    (∀ retries i, (runStep retries i).2.2 = 2 ^ ((retries + 1) - 1)) := by
  refine ⟨?_, ?_, fun retries i => rfl⟩ <;> rw [runTrace_eq] <;> decide

/-- C5: chunk-size degradation.  Across the run the session chunk sizes
are monotonically non-increasing, stay inside the table and at or above
its last entry, and across 6 attempts are 4096, 2048, 1024, 1024, 1024,
1024; the index step never regresses, advances at most one entry per
terminal session, and never moves past the table's last entry. -/
theorem C5_chunk_degradation :
    sessionChunks (runLoop 0 0) = [4096, 2048, 1024, 1024, 1024, 1024, 1024] ∧
    (sessionChunks (runLoop 0 0)).take 6 = [4096, 2048, 1024, 1024, 1024, 1024] ∧
    List.Chain' (fun a b => b ≤ a) (sessionChunks (runLoop 0 0)) ∧
    (sessionChunks (runLoop 0 0)).all
      (fun c => decide (1024 ≤ c) && CHUNK_SIZES.contains c) = true ∧
    (∀ i, chunkAt (advanceIndex i) ≤ chunkAt i) ∧
    (∀ i, i ≤ advanceIndex i ∧ advanceIndex i ≤ i + 1 ∧ advanceIndex i ≤ max i 2) := by
  refine ⟨?_, ?_, ?_, ?_, ?_, ?_⟩
  · exact sessionChunks_eq
  · rw [sessionChunks_eq]
    decide
  · rw [sessionChunks_eq]
    norm_num [List.chain'_cons]
  · rw [sessionChunks_eq]
    decide
  · intro i
    match i with
    | 0 => decide
    | 1 => decide
    | n + 2 =>
      have h : advanceIndex (n + 2) = n + 2 := by
        unfold advanceIndex
        rw [if_neg (by norm_num [CHUNK_SIZES])]
      rw [h]
  · intro i
    have h : advanceIndex i = if i < 2 then i + 1 else i := by
      norm_num [advanceIndex, CHUNK_SIZES]
    rw [h]
    split <;> omega

/-- A `submitFrame` is never counted as a finalize-now request. -/
theorem beq_submit_finalize (t : Nat) (a : List Nat) :
    (Action.submitFrame t a == Action.finalize) = false := rfl

/-- The worker's active-path iteration: read one chunk, frame it and
submit it. -/
theorem workerIter_active (c : Client) (mic : List Nat) (now : Nat)
    (hrun : c.running = true) (hstop : c.stop_threads = false)
    (hact : c.ptt_active = true) (hwas : c.was_active = true)
    (hws : c.ws_conn = true) :
    workerIter c mic now =
      ({ c with chunks_sent := c.chunks_sent + 1 }, [Action.submitFrame now mic]) := by
  simp [workerIter, hrun, hstop, hact, hwas, hws]

/-- C6: activation effect counts.  Hotkey modality: one press
immediately followed by one release (no worker iteration in between)
yields exactly one finalize-now request — also after a further worker
poll, which sees no pending transition — and leaves
`ptt_active = false`.  Toggle modality: two toggles, with a worker
iteration observing each state, restore the original `ptt_active` and
yield exactly one finalize-now request, submitted by the worker's
deactivation tail after the second (deactivating) toggle. -/
theorem C6_activation_effects (c : Client) (mic1 mic2 : List Nat) (t1 t2 : Nat)
    (hact : c.ptt_active = false) (hwas : c.was_active = false)
    (hrun : c.running = true) (hstop : c.stop_threads = false)
    (hws : c.ws_conn = true) (hloop : c.loop_set = true) :
    (finalizeCount (sysRun c [SysEvent.press, SysEvent.release,
        SysEvent.worker mic1 t1]).2 = 1 ∧
      (sysRun c [SysEvent.press, SysEvent.release,
        SysEvent.worker mic1 t1]).1.ptt_active = false) ∧
    (finalizeCount (sysRun c [SysEvent.toggle, SysEvent.worker mic1 t1,
        SysEvent.toggle, SysEvent.worker mic2 t2]).2 = 1 ∧
      (sysRun c [SysEvent.toggle, SysEvent.worker mic1 t1,
        SysEvent.toggle, SysEvent.worker mic2 t2]).1.ptt_active = c.ptt_active ∧
      (sysRun c [SysEvent.toggle, SysEvent.worker mic1 t1,
        SysEvent.toggle, SysEvent.worker mic2 t2]).2 =
        [Action.submitFrame t1 mic1,
         Action.submitFrame t2 (List.replicate (c.current_chunk * 2) 0),
         Action.submitFrame t2 (List.replicate (c.current_chunk * 2) 0),
         Action.finalize]) := by
  constructor
  · constructor
    · simp [sysRun, sysStep, onPressSpace, onReleaseSpace, workerIter, finalizeCount,
        hact, hwas, hrun, hstop, hloop]
    · simp [sysRun, sysStep, onPressSpace, onReleaseSpace, workerIter,
        hact, hwas, hrun, hstop, hloop]
  · refine ⟨?_, ?_, ?_⟩ <;>
      simp [sysRun, sysStep, onToggleSpace, workerIter, finalizeCount, hact, hwas,
        hrun, hstop, hws, hloop, List.count_cons, beq_submit_finalize]

/-- A concrete idle client (connected, loop set, nothing active). -/
def idleDemo : Client := ⟨true, false, false, false, false, true, true, 4096, 0⟩

/-- Witness for C6 at the concrete idle client. -/
theorem C6_activation_effects_witness :
    (finalizeCount (sysRun idleDemo [SysEvent.press, SysEvent.release,
        SysEvent.worker [1] 3]).2 = 1 ∧
      (sysRun idleDemo [SysEvent.press, SysEvent.release,
        SysEvent.worker [1] 3]).1.ptt_active = false) ∧
    (finalizeCount (sysRun idleDemo [SysEvent.toggle, SysEvent.worker [1] 3,
        SysEvent.toggle, SysEvent.worker [2] 4]).2 = 1 ∧
      (sysRun idleDemo [SysEvent.toggle, SysEvent.worker [1] 3,
        SysEvent.toggle, SysEvent.worker [2] 4]).1.ptt_active = idleDemo.ptt_active ∧
      (sysRun idleDemo [SysEvent.toggle, SysEvent.worker [1] 3,
        SysEvent.toggle, SysEvent.worker [2] 4]).2 =
        [Action.submitFrame 3 [1],
         Action.submitFrame 4 (List.replicate (idleDemo.current_chunk * 2) 0),
         Action.submitFrame 4 (List.replicate (idleDemo.current_chunk * 2) 0),
         Action.finalize]) :=
  C6_activation_effects idleDemo [1] [2] 3 4 rfl rfl rfl rfl rfl rfl

/-- C7: deactivation tail ordering.  On the worker's active→inactive
transition it submits exactly two frames of pure silence, each sized to
the current chunk size (`current_chunk * 2` zero bytes, one chunk of
16-bit samples), and the finalize-now request is submitted only after
both; moreover, while active, frames are submitted in capture order and
never reordered: a run of worker iterations submits exactly the frames
of its successive reads, in order. -/
theorem C7_deactivation_tail (c : Client) (mic : List Nat) (now : Nat)
    (hrun : c.running = true) (hstop : c.stop_threads = false)
    (hact : c.ptt_active = false) (hwas : c.was_active = true)
    (hws : c.ws_conn = true) (hloop : c.loop_set = true) :
    workerIter c mic now =
      ({ c with was_active := false, stream_open := false },
        [Action.submitFrame now (List.replicate (c.current_chunk * 2) 0),
         Action.submitFrame now (List.replicate (c.current_chunk * 2) 0),
         Action.finalize]) ∧
    (∀ (c2 : Client) (inputs : List (List Nat × Nat)),
      c2.running = true → c2.stop_threads = false → c2.ptt_active = true →
      c2.was_active = true → c2.ws_conn = true →
      (sysRun c2 (inputs.map fun p => SysEvent.worker p.1 p.2)).2 =
        inputs.map fun p => Action.submitFrame p.2 p.1) := by
  constructor
  · unfold workerIter
    rw [hrun, hstop, hact, hwas]
    simp [hws, hloop]
  · intro c2 inputs
    induction inputs generalizing c2 with
    | nil => intro _ _ _ _ _; rfl
    | cons p inputs ih =>
      intro h1 h2 h3 h4 h5
      simp only [List.map_cons, sysRun, sysStep]
      rw [workerIter_active c2 p.1 p.2 h1 h2 h3 h4 h5]
      have hrest := ih { c2 with chunks_sent := c2.chunks_sent + 1 } h1 h2 h3 h4 h5
      simp [hrest]

/-- A concrete client captured mid-deactivation (`ptt_active` already
false, `was_active` still true). -/
def tailDemo : Client := ⟨true, false, false, true, true, true, true, 4096, 0⟩

/-- A concrete client actively speaking. -/
def activeDemo : Client := ⟨true, false, true, true, true, true, true, 4096, 0⟩

/-- Witness for C7 at the concrete clients. -/
theorem C7_deactivation_tail_witness :
    workerIter tailDemo [] 7 =
      ({ tailDemo with was_active := false, stream_open := false },
        [Action.submitFrame 7 (List.replicate (tailDemo.current_chunk * 2) 0),
         Action.submitFrame 7 (List.replicate (tailDemo.current_chunk * 2) 0),
         Action.finalize]) ∧
    (sysRun activeDemo ([ ([ (9 : Nat)], 3)].map fun p => SysEvent.worker p.1 p.2)).2 =
      [ ([ (9 : Nat)], 3)].map fun p => Action.submitFrame p.2 p.1 := by
  have h := C7_deactivation_tail tailDemo [] 7 rfl rfl rfl rfl rfl rfl
  exact ⟨h.1, h.2 activeDemo [ ([9], 3)] rfl rfl rfl rfl rfl⟩

end RSTT
